import Mathlib

/-!
Shallow embedding of selection_and_structures.py: the two order-statistic
selectors (median of medians and randomized quickselect) with their shared
three-way partition loop, and the elementary containers (stack, queue,
singly linked list). Elements are Python ints, modelled as Int; a Python
exception is modelled as none; recursion carries explicit fuel, and any
fuel above the length of the input list is shown to be enough.
-/

namespace Selection

open List

/-- Python sorted builtin on integer lists, modelled as insertion sort
with the less-or-equal relation. -/
def pySorted (l : List Int) : List Int := l.insertionSort (fun a b => a ≤ b)

/-- Python list indexing lst[i]: a nonnegative index in range returns the
element, a negative index wraps once from the end, anything else raises
IndexError, modelled as none. -/
def pyIndex (l : List Int) (i : Int) : Option Int :=
  if 0 ≤ i then l[i.toNat]?
  else if 0 ≤ i + l.length then l[(i + l.length).toNat]?
  else none

/-- The three-way partition loop shared by both selectors, source lines
36-44 and 77-85: one pass over arr appending x to left when x < pivot,
appending x to right when x > pivot, and counting pivot occurrences
otherwise. -/
def partition3 (arr : List Int) (pivot : Int) : List Int × Nat × List Int :=
  (arr.filter (fun x => decide (x < pivot)),
   (arr.filter (fun x => !decide (x < pivot) && !decide (x > pivot))).length,
   arr.filter (fun x => !decide (x < pivot) && decide (x > pivot)))

/-- The grouping loop of median_of_medians, source lines 28-29: consecutive
slices arr[i:i+5] for i = 0, 5, 10, and so on; written as a structural
match so that the kernel can evaluate it. -/
def groups5 : List Int → List (List Int)
  | [] => []
  | [a] => [[a]]
  | [a, b] => [[a, b]]
  | [a, b, c] => [[a, b, c]]
  | [a, b, c, d] => [[a, b, c, d]]
  | a :: b :: c :: d :: e :: rest => [a, b, c, d, e] :: groups5 rest

/-- Median of one group, source line 30: sorted(group)[len(group) // 2]. -/
def groupMedian (g : List Int) : Int := (pySorted g).getD (g.length / 2) 0

/-- The medians list built by the grouping loop, source lines 27-30. -/
def mediansOf (l : List Int) : List Int := (groups5 l).map groupMedian

/-- Deterministic selection by median of medians, source lines 8-52. The
fuel argument bounds the recursion depth; any fuel above the length of
arr is enough. A call that would raise a Python exception returns none. -/
def median_of_medians : Nat → List Int → Int → Option Int
  | 0, _, _ => none
  | fuel + 1, arr, k =>
    if arr.length ≤ 5 then
      pyIndex (pySorted arr) (k - 1)
    else
      let medians := mediansOf arr
      match median_of_medians fuel medians ((medians.length / 2 : Nat) + 1) with
      | none => none
      | some pivot =>
        let res := partition3 arr pivot
        if k ≤ (res.1.length : Int) then
          median_of_medians fuel res.1 k
        else if k > (res.1.length : Int) + (res.2.1 : Int) then
          median_of_medians fuel res.2.2 (k - (res.1.length : Int) - (res.2.1 : Int))
        else some pivot

/-- Randomized quickselect, source lines 55-93. The rng argument gives the
pivot index chosen at each recursion level, reduced mod the current length
exactly as random.randint(0, len(arr) - 1) ranges over [0, len); recursive
calls shift the stream by one. On an empty arr, randint raises ValueError,
modelled as none. -/
def randomized_quickselect : Nat → (Nat → Nat) → List Int → Int → Option Int
  | 0, _, _, _ => none
  | fuel + 1, rng, arr, k =>
    if arr.length = 1 then arr.head?
    else if arr.length = 0 then none
    else
      let pivot := arr.getD (rng 0 % arr.length) 0
      let res := partition3 arr pivot
      if k ≤ (res.1.length : Int) then
        randomized_quickselect fuel (fun n => rng (n + 1)) res.1 k
      else if k > (res.1.length : Int) + (res.2.1 : Int) then
        randomized_quickselect fuel (fun n => rng (n + 1)) res.2.2
          (k - (res.1.length : Int) - (res.2.1 : Int))
      else some pivot

/-- Stack backed by a Python list, source lines 141-168; push appends at
the end, so the LIFO top is the last element of items. -/
structure Stack where
  items : List Int

def Stack.push (s : Stack) (item : Int) : Stack := ⟨s.items ++ [item]⟩

def Stack.is_empty (s : Stack) : Bool := s.items.length == 0

/-- Stack.pop returns the removed item together with the new stack; the
raise of IndexError on an empty stack is modelled as none. -/
def Stack.pop (s : Stack) : Option (Int × Stack) :=
  if !s.is_empty then (s.items.getLast?).map (fun x => (x, ⟨s.items.dropLast⟩))
  else none

def Stack.peek (s : Stack) : Option Int :=
  if !s.is_empty then s.items.getLast? else none

/-- Queue backed by a Python list, source lines 171-199; enqueue appends
at the end and dequeue pops index 0, so the FIFO front is the head. -/
structure Queue where
  items : List Int

def Queue.enqueue (q : Queue) (item : Int) : Queue := ⟨q.items ++ [item]⟩

def Queue.is_empty (q : Queue) : Bool := q.items.length == 0

/-- Queue.dequeue returns the removed item together with the new queue;
the raise of IndexError on an empty queue is modelled as none. -/
def Queue.dequeue (q : Queue) : Option (Int × Queue) :=
  if !q.is_empty then (q.items.head?).map (fun x => (x, ⟨q.items.tail⟩))
  else none

def Queue.peek (q : Queue) : Option Int :=
  if !q.is_empty then q.items.head? else none

/-- Singly linked list, source lines 202-247; the nodes field lists the
node data from head to tail. -/
structure LinkedList where
  nodes : List Int

def LinkedList.insert_head (ll : LinkedList) (data : Int) : LinkedList :=
  ⟨data :: ll.nodes⟩

/-- The scanning loop of LinkedList.delete past the head, source lines
234-238: unlink the first node whose data matches, keep everything else. -/
def deleteLoop (data : Int) : List Int → List Int
  | [] => []
  | x :: xs => if x = data then xs else x :: deleteLoop data xs

/-- LinkedList.delete, source lines 227-238: an empty list is a no-op, a
matching head is unlinked, otherwise the loop scans the tail. -/
def LinkedList.delete (ll : LinkedList) (data : Int) : LinkedList :=
  match ll.nodes with
  | [] => ll
  | h :: t => if h = data then ⟨t⟩ else ⟨h :: deleteLoop data t⟩

def LinkedList.traverse (ll : LinkedList) : List Int := ll.nodes

/-! Basic facts about pySorted. -/

lemma pySorted_perm (l : List Int) : pySorted l ~ l :=
  List.perm_insertionSort _ l

lemma pySorted_sorted (l : List Int) : (pySorted l).Sorted (fun a b : Int => a ≤ b) :=
  List.sorted_insertionSort _ l

lemma pySorted_length (l : List Int) : (pySorted l).length = l.length :=
  (pySorted_perm l).length_eq

lemma mem_pySorted {l : List Int} {x : Int} : x ∈ pySorted l ↔ x ∈ l :=
  (pySorted_perm l).mem_iff

lemma sorted_append_iff {r : Int → Int → Prop} {l₁ l₂ : List Int} :
    (l₁ ++ l₂).Sorted r ↔ l₁.Sorted r ∧ l₂.Sorted r ∧ ∀ a ∈ l₁, ∀ b ∈ l₂, r a b :=
  List.pairwise_append

/-! Facts about the shared partition loop. -/

lemma partition3_less_mem {arr : List Int} {p x : Int}
    (h : x ∈ (partition3 arr p).1) : x < p := by
  simpa using (List.mem_filter.mp h).2

lemma partition3_greater_mem {arr : List Int} {p x : Int}
    (h : x ∈ (partition3 arr p).2.2) : p < x := by
  have := (List.mem_filter.mp h).2
  simp at this
  omega

lemma partition3_middle_eq_replicate (arr : List Int) (p : Int) :
    arr.filter (fun x => !decide (x < p) && !decide (x > p)) =
      List.replicate (partition3 arr p).2.1 p := by
  apply List.eq_replicate_of_mem
  intro b hb
  have := (List.mem_filter.mp hb).2
  simp at this
  omega

lemma partition3_perm (arr : List Int) (p : Int) :
    (partition3 arr p).1 ++ List.replicate (partition3 arr p).2.1 p ++
      (partition3 arr p).2.2 ~ arr := by
  rw [← partition3_middle_eq_replicate arr p, List.append_assoc]
  have h1 : arr.filter (fun x => decide (x < p)) ++
      arr.filter (fun x => !decide (x < p)) ~ arr :=
    List.filter_append_perm _ arr
  have h2 : (arr.filter (fun x => !decide (x < p))).filter (fun x => decide (x > p)) ++
      (arr.filter (fun x => !decide (x < p))).filter (fun x => !decide (x > p)) ~
      arr.filter (fun x => !decide (x < p)) :=
    List.filter_append_perm _ _
  have e1 : (arr.filter (fun x => !decide (x < p))).filter (fun x => decide (x > p)) =
      arr.filter (fun x => !decide (x < p) && decide (x > p)) := by
    rw [List.filter_filter]
    exact List.filter_congr (fun x _ => Bool.and_comm _ _)
  have e2 : (arr.filter (fun x => !decide (x < p))).filter (fun x => !decide (x > p)) =
      arr.filter (fun x => !decide (x < p) && !decide (x > p)) := by
    rw [List.filter_filter]
    exact List.filter_congr (fun x _ => Bool.and_comm _ _)
  have h3 : arr.filter (fun x => !decide (x < p) && !decide (x > p)) ++
      arr.filter (fun x => !decide (x < p) && decide (x > p)) ~
      arr.filter (fun x => !decide (x < p)) := by
    calc arr.filter (fun x => !decide (x < p) && !decide (x > p)) ++
        arr.filter (fun x => !decide (x < p) && decide (x > p))
        ~ arr.filter (fun x => !decide (x < p) && decide (x > p)) ++
          arr.filter (fun x => !decide (x < p) && !decide (x > p)) :=
          List.perm_append_comm
      _ ~ arr.filter (fun x => !decide (x < p)) := by rw [← e1, ← e2]; exact h2
  calc (partition3 arr p).1 ++
      (arr.filter (fun x => !decide (x < p) && !decide (x > p)) ++ (partition3 arr p).2.2)
      ~ (partition3 arr p).1 ++ arr.filter (fun x => !decide (x < p)) :=
        (h3.append_left _)
    _ ~ arr := h1

lemma partition3_length (arr : List Int) (p : Int) :
    (partition3 arr p).1.length + (partition3 arr p).2.1 +
      (partition3 arr p).2.2.length = arr.length := by
  have h := (partition3_perm arr p).length_eq
  simp [List.length_append, List.length_replicate] at h
  omega

lemma partition3_count_pos {arr : List Int} {p : Int} (h : p ∈ arr) :
    1 ≤ (partition3 arr p).2.1 := by
  have hm : p ∈ arr.filter (fun x => !decide (x < p) && !decide (x > p)) :=
    List.mem_filter.mpr ⟨h, by simp⟩
  have : 0 < (arr.filter (fun x => !decide (x < p) && !decide (x > p))).length :=
    List.length_pos.mpr (List.ne_nil_of_mem hm)
  exact this

lemma sorted_replicate (n : Nat) (p : Int) :
    (List.replicate n p).Sorted (fun a b : Int => a ≤ b) :=
  List.pairwise_replicate.mpr (Or.inr (le_refl p))

/-- Sorting a list splits around any pivot: the sorted list is the sorted
strictly-smaller part, then the block of pivot copies, then the sorted
strictly-greater part. -/
lemma pySorted_decomp (arr : List Int) (p : Int) :
    pySorted arr =
      pySorted (partition3 arr p).1 ++ List.replicate (partition3 arr p).2.1 p ++
        pySorted (partition3 arr p).2.2 := by
  have hperm : pySorted arr ~
      pySorted (partition3 arr p).1 ++ List.replicate (partition3 arr p).2.1 p ++
        pySorted (partition3 arr p).2.2 := by
    refine (pySorted_perm arr).trans ((partition3_perm arr p).symm.trans ?_)
    exact ((pySorted_perm _).symm.append (Perm.refl _)).append (pySorted_perm _).symm
  refine List.eq_of_perm_of_sorted hperm (pySorted_sorted arr) ?_
  rw [List.append_assoc, sorted_append_iff]
  refine ⟨pySorted_sorted _, ?_, ?_⟩
  · rw [sorted_append_iff]
    refine ⟨sorted_replicate _ _, pySorted_sorted _, ?_⟩
    intro a ha b hb
    have ha2 : a = p := List.eq_of_mem_replicate ha
    have hb2 : p < b := partition3_greater_mem (mem_pySorted.mp hb)
    omega
  · intro a ha b hb
    have ha2 : a < p := partition3_less_mem (mem_pySorted.mp ha)
    rcases List.mem_append.mp hb with h | h
    · have : b = p := List.eq_of_mem_replicate h
      omega
    · have : p < b := partition3_greater_mem (mem_pySorted.mp h)
      omega

/-- When the rank lies in the strictly-less part, indexing the full sorted
list agrees with indexing the sorted less part. -/
lemma rank_in_left {arr : List Int} (p : Int) {k : Int}
    (h1 : 1 ≤ k) (h2 : k ≤ ((partition3 arr p).1.length : Int)) :
    (pySorted arr)[(k - 1).toNat]? = (pySorted (partition3 arr p).1)[(k - 1).toNat]? := by
  rw [pySorted_decomp arr p, List.append_assoc]
  have hlen : (pySorted (partition3 arr p).1).length = (partition3 arr p).1.length :=
    pySorted_length _
  have hi : (k - 1).toNat < (pySorted (partition3 arr p).1).length := by
    rw [hlen]; omega
  rw [List.getElem?_append_left hi]

/-- When the rank lands in the pivot block, indexing the full sorted list
yields the pivot itself. -/
lemma rank_at_pivot {arr : List Int} {p k : Int}
    (h1 : ((partition3 arr p).1.length : Int) < k)
    (h2 : k ≤ ((partition3 arr p).1.length : Int) + ((partition3 arr p).2.1 : Int)) :
    (pySorted arr)[(k - 1).toNat]? = some p := by
  rw [pySorted_decomp arr p, List.append_assoc]
  have hlen : (pySorted (partition3 arr p).1).length = (partition3 arr p).1.length :=
    pySorted_length _
  have hge : (pySorted (partition3 arr p).1).length ≤ (k - 1).toNat := by
    rw [hlen]; omega
  rw [List.getElem?_append_right hge]
  have hlt : (k - 1).toNat - (pySorted (partition3 arr p).1).length <
      (List.replicate (partition3 arr p).2.1 p).length := by
    rw [hlen, List.length_replicate]; omega
  rw [List.getElem?_append_left hlt]
  exact List.getElem?_replicate_of_lt (by rw [List.length_replicate] at hlt; omega)

/-- When the rank lies past the pivot block, indexing the full sorted list
agrees with indexing the sorted greater part at the shifted rank. -/
lemma rank_in_right {arr : List Int} {p k : Int}
    (h1 : ((partition3 arr p).1.length : Int) + ((partition3 arr p).2.1 : Int) < k) :
    (pySorted arr)[(k - 1).toNat]? =
      (pySorted (partition3 arr p).2.2)[(k - ((partition3 arr p).1.length : Int) -
        ((partition3 arr p).2.1 : Int) - 1).toNat]? := by
  rw [pySorted_decomp arr p, List.append_assoc]
  have hlen : (pySorted (partition3 arr p).1).length = (partition3 arr p).1.length :=
    pySorted_length _
  have hge : (pySorted (partition3 arr p).1).length ≤ (k - 1).toNat := by
    rw [hlen]; omega
  rw [List.getElem?_append_right hge]
  have hge2 : (List.replicate (partition3 arr p).2.1 p).length ≤
      (k - 1).toNat - (pySorted (partition3 arr p).1).length := by
    rw [hlen, List.length_replicate]; omega
  rw [List.getElem?_append_right hge2]
  congr 1
  rw [hlen, List.length_replicate]
  omega

/-- Indexing the sorted list at a valid rank succeeds with an element of
the original list. -/
lemma pySorted_get_some {arr : List Int} {k : Int}
    (h1 : 1 ≤ k) (h2 : k ≤ (arr.length : Int)) :
    ∃ v, (pySorted arr)[(k - 1).toNat]? = some v ∧ v ∈ arr := by
  have hlt : (k - 1).toNat < (pySorted arr).length := by
    rw [pySorted_length]; omega
  exact ⟨_, List.getElem?_eq_getElem hlt, mem_pySorted.mp (List.getElem_mem hlt)⟩

lemma pyIndex_nonneg {l : List Int} {i : Int} (h : 0 ≤ i) :
    pyIndex l i = l[i.toNat]? := by
  simp [pyIndex, h]

/-! Facts about the grouping loop and the medians list. -/

lemma groups5_join : ∀ l : List Int, (groups5 l).flatten = l
  | [] => rfl
  | [_] => rfl
  | [_, _] => rfl
  | [_, _, _] => rfl
  | [_, _, _, _] => rfl
  | a :: b :: c :: d :: e :: rest => by
    rw [groups5, List.flatten_cons, groups5_join rest]
    rfl

lemma groups5_mem {l g : List Int} (h : g ∈ groups5 l) : g.length ≤ 5 ∧ g ≠ [] := by
  induction l using groups5.induct with
  | case1 => simp [groups5] at h
  | case2 a => rw [groups5] at h; simp at h; subst h; exact ⟨by simp, by simp⟩
  | case3 a b => rw [groups5] at h; simp at h; subst h; exact ⟨by simp, by simp⟩
  | case4 a b c => rw [groups5] at h; simp at h; subst h; exact ⟨by simp, by simp⟩
  | case5 a b c d => rw [groups5] at h; simp at h; subst h; exact ⟨by simp, by simp⟩
  | case6 a b c d e rest ih =>
    rw [groups5, List.mem_cons] at h
    rcases h with rfl | h
    · exact ⟨by simp, by simp⟩
    · exact ih h

lemma groups5_length (l : List Int) : (groups5 l).length = (l.length + 4) / 5 := by
  induction l using groups5.induct with
  | case1 => rfl
  | case2 a => rw [groups5]; norm_num
  | case3 a b => rw [groups5]; norm_num
  | case4 a b c => rw [groups5]; norm_num
  | case5 a b c d => rw [groups5]; norm_num
  | case6 a b c d e rest ih =>
    rw [groups5, List.length_cons, ih]
    simp only [List.length_cons]
    omega

lemma groupMedian_mem {g : List Int} (h : g ≠ []) : groupMedian g ∈ g := by
  have hlen : 0 < g.length := List.length_pos.mpr h
  have hlt : g.length / 2 < (pySorted g).length := by
    rw [pySorted_length]
    exact Nat.div_lt_self hlen (by omega)
  rw [groupMedian, List.getD_eq_getElem?_getD, List.getElem?_eq_getElem hlt]
  exact mem_pySorted.mp (List.getElem_mem hlt)

lemma mediansOf_subset {l : List Int} {x : Int} (h : x ∈ mediansOf l) : x ∈ l := by
  rw [mediansOf] at h
  obtain ⟨g, hg, rfl⟩ := List.mem_map.mp h
  have hx := groupMedian_mem (groups5_mem hg).2
  have : groupMedian g ∈ (groups5 l).flatten := List.mem_flatten.mpr ⟨g, hg, hx⟩
  rwa [groups5_join] at this

lemma mediansOf_length (l : List Int) : (mediansOf l).length = (l.length + 4) / 5 := by
  rw [mediansOf, List.length_map, groups5_length]

/-- Main correctness of the deterministic selector: with fuel above the
length of arr and a valid rank, median_of_medians returns the element of
the sorted list at position k - 1. -/
lemma mom_correct : ∀ (fuel : Nat) (arr : List Int) (k : Int),
    arr.length < fuel → 1 ≤ k → k ≤ (arr.length : Int) →
    median_of_medians fuel arr k = (pySorted arr)[(k - 1).toNat]? := by
  intro fuel
  induction fuel with
  | zero => intro arr k h _ _; omega
  | succ fuel ih =>
    intro arr k hfuel h1 h2
    simp only [median_of_medians]
    by_cases hle : arr.length ≤ 5
    · rw [if_pos hle]
      exact pyIndex_nonneg (by omega)
    · rw [if_neg hle]
      have hmlen : (mediansOf arr).length = (arr.length + 4) / 5 := mediansOf_length arr
      have hmlt : (mediansOf arr).length < arr.length := by omega
      have hmpos : 0 < (mediansOf arr).length := by omega
      have hr1 : (1 : Int) ≤ ((mediansOf arr).length / 2 : Nat) + 1 := by omega
      have hr2 : (((mediansOf arr).length / 2 : Nat) + 1 : Int) ≤
          ((mediansOf arr).length : Int) := by
        have := Nat.div_lt_self hmpos (by omega : 1 < 2)
        omega
      obtain ⟨pv, hpv, hpvmem⟩ := pySorted_get_some hr1 hr2
      have hrec : median_of_medians fuel (mediansOf arr)
          (((mediansOf arr).length / 2 : Nat) + 1) = some pv := by
        rw [ih (mediansOf arr) _ (by omega) hr1 hr2]
        exact hpv
      simp only [hrec]
      have hmem : pv ∈ arr := mediansOf_subset hpvmem
      have hLcR := partition3_length arr pv
      have hcpos := partition3_count_pos hmem
      split_ifs with hA hB
      · rw [ih _ _ (by omega) h1 hA]
        exact (rank_in_left pv h1 hA).symm
      · rw [ih _ _ (by omega) (by omega) (by omega)]
        exact (rank_in_right (by omega)).symm
      · exact (rank_at_pivot (by omega) (by omega)).symm

/-- Main correctness of the randomized selector: with fuel above the
length of arr and a valid rank, randomized_quickselect returns the element
of the sorted list at position k - 1, whatever pivot indices the stream
supplies. -/
lemma qs_correct : ∀ (fuel : Nat) (rng : Nat → Nat) (arr : List Int) (k : Int),
    arr.length < fuel → 1 ≤ k → k ≤ (arr.length : Int) →
    randomized_quickselect fuel rng arr k = (pySorted arr)[(k - 1).toNat]? := by
  intro fuel
  induction fuel with
  | zero => intro rng arr k h _ _; omega
  | succ fuel ih =>
    intro rng arr k hfuel h1 h2
    simp only [randomized_quickselect]
    by_cases hone : arr.length = 1
    · rw [if_pos hone]
      have hk : k = 1 := by omega
      match arr, hone with
      | [x], _ => subst hk; rfl
    · rw [if_neg hone]
      have hzero : ¬arr.length = 0 := by omega
      rw [if_neg hzero]
      have hidx : rng 0 % arr.length < arr.length :=
        Nat.mod_lt _ (by omega)
      have hmem : arr.getD (rng 0 % arr.length) 0 ∈ arr := by
        rw [List.getD_eq_getElem?_getD, List.getElem?_eq_getElem hidx]
        exact List.getElem_mem hidx
      have hLcR := partition3_length arr (arr.getD (rng 0 % arr.length) 0)
      have hcpos := partition3_count_pos hmem
      split_ifs with hA hB
      · rw [ih _ _ _ (by omega) h1 hA]
        exact (rank_in_left _ h1 hA).symm
      · rw [ih _ _ _ (by omega) (by omega) (by omega)]
        exact (rank_in_right (by omega)).symm
      · exact (rank_at_pivot (by omega) (by omega)).symm

/-- The pivot count of the partition step is exactly the multiplicity of
the pivot in the input. -/
lemma partition3_count_eq (arr : List Int) (p : Int) :
    (partition3 arr p).2.1 = arr.countP (fun x => decide (x = p)) := by
  show (arr.filter _).length = _
  rw [List.countP_eq_length_filter]
  congr 1
  apply List.filter_congr
  intro x _
  rcases lt_trichotomy x p with h | h | h
  · have h2 : ¬x > p := by omega
    have h3 : ¬x = p := by omega
    simp [h, h2, h3]
  · have h2 : ¬x < p := by omega
    have h3 : ¬x > p := by omega
    simp [h, h2, h3]
  · have h2 : ¬x < p := by omega
    have h3 : ¬x = p := by omega
    simp [h2, h, h3]

/-- The scanning loop of delete removes exactly the first occurrence and
keeps everything else in order. -/
lemma deleteLoop_eq (v : Int) : ∀ t : List Int,
    deleteLoop v t = t.take (t.indexOf v) ++ t.drop (t.indexOf v + 1)
  | [] => by simp [deleteLoop]
  | x :: xs => by
    rw [deleteLoop]
    by_cases hx : x = v
    · subst hx
      rw [if_pos rfl]
      simp [List.indexOf_cons_self]
    · rw [if_neg hx]
      rw [List.indexOf_cons_ne _ hx, deleteLoop_eq v xs]
      simp

/-! The claims. -/

/-- C1: for every non-empty list and every rank k with 1 ≤ k ≤ length,
median_of_medians returns the k-th smallest element, the element of the
sorted list at position k - 1, duplicate values included. -/
theorem C1_mom_selects_kth (fuel : Nat) (arr : List Int) (k : Int)
    (hfuel : arr.length < fuel) (h1 : 1 ≤ k) (h2 : k ≤ (arr.length : Int)) :
    ∃ v, median_of_medians fuel arr k = some v ∧
      (pySorted arr)[(k - 1).toNat]? = some v := by
  obtain ⟨v, hv, _⟩ := pySorted_get_some h1 h2
  exact ⟨v, by rw [mom_correct fuel arr k hfuel h1 h2]; exact hv, hv⟩

/-- Witness for C1 at the concrete scenario of the spec: the 4-th smallest
of [9,3,7,1,8,2,5] is 5. -/
theorem C1_witness :
    (([9,3,7,1,8,2,5] : List Int).length < 8 ∧ (1 : Int) ≤ 4 ∧
      (4 : Int) ≤ (([9,3,7,1,8,2,5] : List Int).length : Int)) ∧
    (∃ v, median_of_medians 8 [9,3,7,1,8,2,5] 4 = some v ∧
      (pySorted [9,3,7,1,8,2,5])[((4 : Int) - 1).toNat]? = some v) ∧
    median_of_medians 8 [9,3,7,1,8,2,5] 4 = some 5 :=
  ⟨⟨by decide, by decide, by decide⟩,
    C1_mom_selects_kth 8 [9,3,7,1,8,2,5] 4 (by decide) (by decide) (by decide),
    by decide⟩

/-- C2: for every non-empty list, every valid rank, and every stream of
pivot index choices, one consumed per recursion level and reduced into
[0, length) at that level, randomized_quickselect returns the k-th
smallest element. -/
theorem C2_qs_selects_kth (fuel : Nat) (rng : Nat → Nat) (arr : List Int) (k : Int)
    (hfuel : arr.length < fuel) (h1 : 1 ≤ k) (h2 : k ≤ (arr.length : Int)) :
    ∃ v, randomized_quickselect fuel rng arr k = some v ∧
      (pySorted arr)[(k - 1).toNat]? = some v := by
  obtain ⟨v, hv, _⟩ := pySorted_get_some h1 h2
  exact ⟨v, by rw [qs_correct fuel rng arr k hfuel h1 h2]; exact hv, hv⟩

/-- Witness for C2 on the same scenario with a nonconstant pivot stream. -/
theorem C2_witness :
    (([9,3,7,1,8,2,5] : List Int).length < 8 ∧ (1 : Int) ≤ 4 ∧
      (4 : Int) ≤ (([9,3,7,1,8,2,5] : List Int).length : Int)) ∧
    (∃ v, randomized_quickselect 8 (fun n => 3 * n + 1) [9,3,7,1,8,2,5] 4 = some v ∧
      (pySorted [9,3,7,1,8,2,5])[((4 : Int) - 1).toNat]? = some v) ∧
    randomized_quickselect 8 (fun n => 3 * n + 1) [9,3,7,1,8,2,5] 4 = some 5 :=
  ⟨⟨by decide, by decide, by decide⟩,
    C2_qs_selects_kth 8 (fun n => 3 * n + 1) [9,3,7,1,8,2,5] 4 (by decide) (by decide) (by decide),
    by decide⟩

/-- C3 counterexample: the claim says selectDeterministic([3,1,2], 0)
fails with InvalidRank, but the code performs no validation: the base
case evaluates sorted(arr)[-1], which by Python negative indexing returns
the maximum 3, a normal value, not a failure. -/
theorem C3_counterexample : median_of_medians 4 [3,1,2] 0 = some 3 := by decide

/-- C3 amended: neither entry point validates 1 ≤ k ≤ length. A rank
above the length or any rank on an empty list makes the deterministic
base case raise IndexError (modelled none), quickselect on an empty list
fails only because randint raises ValueError (modelled none), and a rank
of 0 on a short list silently returns the maximum through negative
indexing instead of failing. -/
theorem C3_amended :
    median_of_medians 1 [] 1 = none ∧
    median_of_medians 4 [3,1,2] 4 = none ∧
    median_of_medians 4 [3,1,2] 0 = some 3 ∧
    ∀ (rng : Nat → Nat) (k : Int), randomized_quickselect 1 rng [] k = none :=
  ⟨by decide, by decide, by decide, fun _ _ => rfl⟩

/-- C4: the three-way partition step splits the collection into lengths
summing to the input length, keeps strictly smaller elements left and
strictly greater elements right, counts exactly the multiplicity of the
pivot, and counts at least one occurrence whenever the pivot is drawn
from the collection. -/
theorem C4_partition_invariant (arr : List Int) (p : Int) (hp : p ∈ arr) :
    (partition3 arr p).1.length + (partition3 arr p).2.1 +
        (partition3 arr p).2.2.length = arr.length ∧
    (∀ x ∈ (partition3 arr p).1, x < p) ∧
    (∀ x ∈ (partition3 arr p).2.2, p < x) ∧
    (partition3 arr p).2.1 = arr.countP (fun x => decide (x = p)) ∧
    1 ≤ (partition3 arr p).2.1 :=
  ⟨partition3_length arr p, fun _ hx => partition3_less_mem hx,
    fun _ hx => partition3_greater_mem hx, partition3_count_eq arr p,
    partition3_count_pos hp⟩

/-- Witness for C4 on a list with a duplicated pivot. -/
theorem C4_witness :
    (2 : Int) ∈ ([2,1,2,3] : List Int) ∧
    ((partition3 [2,1,2,3] 2).1.length + (partition3 [2,1,2,3] 2).2.1 +
        (partition3 [2,1,2,3] 2).2.2.length = ([2,1,2,3] : List Int).length ∧
    (∀ x ∈ (partition3 [2,1,2,3] 2).1, x < 2) ∧
    (∀ x ∈ (partition3 [2,1,2,3] 2).2.2, (2 : Int) < x) ∧
    (partition3 [2,1,2,3] 2).2.1 = ([2,1,2,3] : List Int).countP (fun x => decide (x = 2)) ∧
    1 ≤ (partition3 [2,1,2,3] 2).2.1) :=
  ⟨by decide, C4_partition_invariant [2,1,2,3] 2 (by decide)⟩

/-- C5: both selectors are value-deterministic: two runs of quickselect
with different pivot streams and different fuel, and two runs of the
deterministic selector with different fuel, return the same value on the
same collection and rank, and the two selectors agree with each other. -/
theorem C5_value_deterministic (arr : List Int) (k : Int) (rng1 rng2 : Nat → Nat)
    (f1 f2 g1 g2 : Nat) (hf1 : arr.length < f1) (hf2 : arr.length < f2)
    (hg1 : arr.length < g1) (hg2 : arr.length < g2)
    (h1 : 1 ≤ k) (h2 : k ≤ (arr.length : Int)) :
    randomized_quickselect f1 rng1 arr k = randomized_quickselect f2 rng2 arr k ∧
    median_of_medians g1 arr k = median_of_medians g2 arr k ∧
    randomized_quickselect f1 rng1 arr k = median_of_medians g1 arr k := by
  rw [qs_correct f1 rng1 arr k hf1 h1 h2, qs_correct f2 rng2 arr k hf2 h1 h2,
    mom_correct g1 arr k hg1 h1 h2, mom_correct g2 arr k hg2 h1 h2]
  exact ⟨rfl, rfl, rfl⟩

/-- Witness for C5 on a duplicate-heavy list with two pivot streams and
four different fuels. -/
theorem C5_witness :
    (([4,4,1,4,2] : List Int).length < 6 ∧ ([4,4,1,4,2] : List Int).length < 7 ∧
      ([4,4,1,4,2] : List Int).length < 8 ∧ ([4,4,1,4,2] : List Int).length < 9 ∧
      (1 : Int) ≤ 3 ∧ (3 : Int) ≤ (([4,4,1,4,2] : List Int).length : Int)) ∧
    (randomized_quickselect 6 (fun _ => 0) [4,4,1,4,2] 3 =
      randomized_quickselect 7 (fun n => 5 * n + 2) [4,4,1,4,2] 3 ∧
    median_of_medians 8 [4,4,1,4,2] 3 = median_of_medians 9 [4,4,1,4,2] 3 ∧
    randomized_quickselect 6 (fun _ => 0) [4,4,1,4,2] 3 =
      median_of_medians 8 [4,4,1,4,2] 3) :=
  ⟨⟨by decide, by decide, by decide, by decide, by decide, by decide⟩,
    C5_value_deterministic [4,4,1,4,2] 3 (fun _ => 0) (fun n => 5 * n + 2) 6 7 8 9
      (by decide) (by decide) (by decide) (by decide) (by decide) (by decide)⟩

/-- C6: in the recursive case (length above 5) the collection splits into
consecutive groups of at most five elements whose concatenation is the
collection, each group median is the sorted group element at index half
the group length, the medians list has ceiling of length over five
entries, and the pivot recursion selects the medians at rank half their
number plus one, which is the upper median of the sorted medians; the
base case (length at most 5) returns the fully sorted element at
position k - 1. -/
theorem C6_mom_structure (arr : List Int) (fuel : Nat) (k : Int)
    (h5 : 5 < arr.length) (hfuel : arr.length ≤ fuel) :
    (groups5 arr).flatten = arr ∧
    (∀ g ∈ groups5 arr, g.length ≤ 5) ∧
    mediansOf arr = (groups5 arr).map (fun g => (pySorted g).getD (g.length / 2) 0) ∧
    (mediansOf arr).length = (arr.length + 4) / 5 ∧
    median_of_medians fuel (mediansOf arr) (((mediansOf arr).length / 2 : Nat) + 1) =
      (pySorted (mediansOf arr))[(mediansOf arr).length / 2]? ∧
    median_of_medians (fuel + 1) arr k =
      (match median_of_medians fuel (mediansOf arr)
          (((mediansOf arr).length / 2 : Nat) + 1) with
       | none => none
       | some pivot =>
         if k ≤ ((partition3 arr pivot).1.length : Int) then
           median_of_medians fuel (partition3 arr pivot).1 k
         else if k > ((partition3 arr pivot).1.length : Int) +
             ((partition3 arr pivot).2.1 : Int) then
           median_of_medians fuel (partition3 arr pivot).2.2
             (k - ((partition3 arr pivot).1.length : Int) -
               ((partition3 arr pivot).2.1 : Int))
         else some pivot) ∧
    (∀ (l : List Int) (j : Int), l.length ≤ 5 → 1 ≤ j →
      median_of_medians (fuel + 1) l j = pyIndex (pySorted l) (j - 1) ∧
      (j ≤ (l.length : Int) →
        median_of_medians (fuel + 1) l j = (pySorted l)[(j - 1).toNat]?)) := by
  have hmlen := mediansOf_length arr
  have hmpos : 0 < (mediansOf arr).length := by omega
  refine ⟨groups5_join arr, fun g hg => (groups5_mem hg).1, rfl, hmlen, ?_, ?_, ?_⟩
  · have hr1 : (1 : Int) ≤ ((mediansOf arr).length / 2 : Nat) + 1 := by omega
    have hr2 : (((mediansOf arr).length / 2 : Nat) + 1 : Int) ≤
        ((mediansOf arr).length : Int) := by
      have := Nat.div_lt_self hmpos (by omega : 1 < 2)
      omega
    rw [mom_correct fuel _ _ (by omega) hr1 hr2]
    congr 1
    omega
  · simp only [median_of_medians]
    rw [if_neg (by omega : ¬arr.length ≤ 5)]
  · intro l j hl hj1
    constructor
    · simp only [median_of_medians]
      rw [if_pos hl]
    · intro hj2
      simp only [median_of_medians]
      rw [if_pos hl]
      exact pyIndex_nonneg (by omega)

/-- Witness for C6 on a six-element list. -/
theorem C6_witness :
    (5 < ([9,3,7,1,8,2] : List Int).length ∧ ([9,3,7,1,8,2] : List Int).length ≤ 6) ∧
    ((groups5 [9,3,7,1,8,2]).flatten = [9,3,7,1,8,2] ∧
    (∀ g ∈ groups5 [9,3,7,1,8,2], g.length ≤ 5) ∧
    mediansOf [9,3,7,1,8,2] =
      (groups5 [9,3,7,1,8,2]).map (fun g => (pySorted g).getD (g.length / 2) 0) ∧
    (mediansOf [9,3,7,1,8,2]).length = (([9,3,7,1,8,2] : List Int).length + 4) / 5 ∧
    median_of_medians 6 (mediansOf [9,3,7,1,8,2])
        (((mediansOf [9,3,7,1,8,2]).length / 2 : Nat) + 1) =
      (pySorted (mediansOf [9,3,7,1,8,2]))[(mediansOf [9,3,7,1,8,2]).length / 2]? ∧
    median_of_medians 7 [9,3,7,1,8,2] 2 =
      (match median_of_medians 6 (mediansOf [9,3,7,1,8,2])
          (((mediansOf [9,3,7,1,8,2]).length / 2 : Nat) + 1) with
       | none => none
       | some pivot =>
         if (2 : Int) ≤ ((partition3 [9,3,7,1,8,2] pivot).1.length : Int) then
           median_of_medians 6 (partition3 [9,3,7,1,8,2] pivot).1 2
         else if (2 : Int) > ((partition3 [9,3,7,1,8,2] pivot).1.length : Int) +
             ((partition3 [9,3,7,1,8,2] pivot).2.1 : Int) then
           median_of_medians 6 (partition3 [9,3,7,1,8,2] pivot).2.2
             (2 - ((partition3 [9,3,7,1,8,2] pivot).1.length : Int) -
               ((partition3 [9,3,7,1,8,2] pivot).2.1 : Int))
         else some pivot) ∧
    (∀ (l : List Int) (j : Int), l.length ≤ 5 → 1 ≤ j →
      median_of_medians 7 l j = pyIndex (pySorted l) (j - 1) ∧
      (j ≤ (l.length : Int) →
        median_of_medians 7 l j = (pySorted l)[(j - 1).toNat]?))) :=
  ⟨⟨by decide, by decide⟩, C6_mom_structure [9,3,7,1,8,2] 6 2 (by decide) (by decide)⟩

/-- C7: both selectors terminate on every finite non-empty list with a
valid rank; fuel above the length, a bound on the recursion depth since
every recursive call is on a strictly shorter list, already yields a
result. -/
theorem C7_selectors_terminate (arr : List Int) (k : Int) (fuel : Nat)
    (hfuel : arr.length < fuel) (h1 : 1 ≤ k) (h2 : k ≤ (arr.length : Int)) :
    (median_of_medians fuel arr k).isSome = true ∧
    ∀ rng : Nat → Nat, (randomized_quickselect fuel rng arr k).isSome = true := by
  obtain ⟨v, hv, _⟩ := pySorted_get_some h1 h2
  refine ⟨?_, fun rng => ?_⟩
  · rw [mom_correct fuel arr k hfuel h1 h2, hv]
    rfl
  · rw [qs_correct fuel rng arr k hfuel h1 h2, hv]
    rfl

/-- Witness for C7 on a seven-element list with duplicates. -/
theorem C7_witness :
    (([5,5,5,5,5,1,2] : List Int).length < 8 ∧ (1 : Int) ≤ 7 ∧
      (7 : Int) ≤ (([5,5,5,5,5,1,2] : List Int).length : Int)) ∧
    ((median_of_medians 8 [5,5,5,5,5,1,2] 7).isSome = true ∧
    ∀ rng : Nat → Nat, (randomized_quickselect 8 rng [5,5,5,5,5,1,2] 7).isSome = true) :=
  ⟨⟨by decide, by decide, by decide⟩,
    C7_selectors_terminate [5,5,5,5,5,1,2] 7 8 (by decide) (by decide) (by decide)⟩

/-- C8: pop and peek on a stack and dequeue and peek on a queue fail,
raising the modelled error, exactly when the structure is empty, and on a
non-empty structure return the LIFO top, the last pushed element, or the
FIFO front, the head of the item list. -/
theorem C8_container_empty_failures (l : List Int) :
    Stack.pop ⟨l⟩ = (l.getLast?).map (fun x => (x, (⟨l.dropLast⟩ : Stack))) ∧
    Stack.peek ⟨l⟩ = l.getLast? ∧
    Queue.dequeue ⟨l⟩ = (l.head?).map (fun x => (x, (⟨l.tail⟩ : Queue))) ∧
    Queue.peek ⟨l⟩ = l.head? ∧
    (Stack.pop ⟨l⟩ = none ↔ l = []) ∧
    (Stack.peek ⟨l⟩ = none ↔ l = []) ∧
    (Queue.dequeue ⟨l⟩ = none ↔ l = []) ∧
    (Queue.peek ⟨l⟩ = none ↔ l = []) := by
  cases l with
  | nil =>
    simp [Stack.pop, Stack.peek, Stack.is_empty, Queue.dequeue, Queue.peek, Queue.is_empty]
  | cons x xs =>
    simp [Stack.pop, Stack.peek, Stack.is_empty, Queue.dequeue, Queue.peek, Queue.is_empty]

/-- C9: the quickselect base case performs no rank validation: on a
singleton list every integer rank, in range or not, returns the sole
element as a normal value. -/
theorem C9_singleton_no_validation (fuel : Nat) (rng : Nat → Nat) (x k : Int) :
    randomized_quickselect (fuel + 1) rng [x] k = some x := by
  simp [randomized_quickselect]

/-- The delete operation on the node list: the first occurrence of the
value is cut out and everything else keeps its place. -/
lemma llDelete_traverse (l : List Int) (v : Int) :
    (LinkedList.delete ⟨l⟩ v).traverse =
      l.take (l.indexOf v) ++ l.drop (l.indexOf v + 1) := by
  cases l with
  | nil => rfl
  | cons h t =>
    show (if h = v then (⟨t⟩ : LinkedList) else ⟨h :: deleteLoop v t⟩).traverse = _
    by_cases hx : h = v
    · subst hx
      rw [if_pos rfl, LinkedList.traverse, List.indexOf_cons_self]
      simp
    · rw [if_neg hx, LinkedList.traverse, List.indexOf_cons_ne _ hx, deleteLoop_eq]
      simp

/-- C10: delete removes exactly the first node whose data equals the
value, all other nodes keeping their relative order, and is a no-op
precisely when the value is absent, the empty list included; traverse
reports the unchanged sequence in that case. -/
theorem C10_delete_first_occurrence (l : List Int) (v : Int) :
    (LinkedList.delete ⟨l⟩ v).traverse =
      l.take (l.indexOf v) ++ l.drop (l.indexOf v + 1) ∧
    (v ∉ l ↔ (LinkedList.delete ⟨l⟩ v).traverse = l) := by
  refine ⟨llDelete_traverse l v, ?_, ?_⟩
  · intro hv
    rw [llDelete_traverse l v, List.indexOf_eq_length.mpr hv]
    simp [List.drop_eq_nil_of_le]
  · intro heq
    by_contra hv
    have hlt : l.indexOf v < l.length := List.indexOf_lt_length.mpr hv
    have hlen := congrArg List.length heq
    rw [llDelete_traverse l v] at hlen
    simp [List.length_take, List.length_drop] at hlen
    omega

end Selection
